import Mathlib

/-!
# ecsgo: the cluster → task → container resolution of `pkg/cmd/internal.go`

A shallow embedding of `getCluster`, `getTask`, `getContainer`, `selectCluster`,
`selectTask`, `selectContainer` and `runCommand`.

Conventions of the embedding:

* a Go `string` is a Lean `String`; the library functions `strings.Split`,
  `strings.Contains`, `strings.Join` are modelled on the character lists;
* a Go `*string` field of an SDK record is an `Option String` (`nil` is `none`), so
  that the zero-value literals `&ecs.Task{}` and `&ecs.Container{}` of the source
  can be written down; the elements of the SDK slices (`[]*string`, `[]*ecs.Task`,
  `[]*ecs.Container`) are taken to be non-nil and are modelled as list elements;
* a function result `(v, err)` is a pair `α × Option GoError`, a nil pointer result
  is `none`;
* every call that leaves the program (provider call, prompt, `fmt.Println`) is
  recorded as an `Event` in the trace of the run; a runtime panic ends the run.
-/

namespace Ecsgo

/-! ## Go runtime: errors, panics, indexing, dereferencing -/

/-- A Go `error` value, identified by its message (`err.Error()`). -/
structure GoError where
  msg : String
  deriving DecidableEq, Repr

/-- The runtime panics the embedded code can raise. -/
inductive Panic where
  | nilDereference
  | indexOutOfRange (index length : Nat)
  deriving DecidableEq, Repr

/-- Go `xs[i]`: the element, or the runtime panic `index out of range`. -/
def index {α : Type} (xs : List α) (i : Nat) : Except Panic α :=
  match xs[i]? with
  | some x => .ok x
  | none => .error (.indexOutOfRange i xs.length)

/-- Go `*p` for a pointer field: the value, or the runtime panic of a nil dereference. -/
def deref {α : Type} : Option α → Except Panic α
  | some x => .ok x
  | none => .error .nilDereference

/-! ## Package `strings` -/

namespace strings

/-- Pieces of `s` around the non-overlapping occurrences of a non-empty `sep`,
leftmost first; `skip` counts the characters of a matched separator still to drop. -/
def splitOnList (sep : List Char) : List Char → Nat → List (List Char)
  | [], _ => [[]]
  | _ :: cs, skip + 1 => splitOnList sep cs skip
  | c :: cs, 0 =>
    if sep <+: (c :: cs) then [] :: splitOnList sep cs (sep.length - 1)
    else
      match splitOnList sep cs 0 with
      | [] => [[c]]
      | p :: ps => (c :: p) :: ps

/-- Go `strings.Split(s, sep)`: with an empty `sep` the string is exploded into its
characters, otherwise it is cut at every occurrence of `sep`. -/
def Split (s sep : String) : List String :=
  if sep.data = [] then s.data.map (fun c => String.mk [c])
  else (splitOnList sep.data s.data 0).map String.mk

/-- Go `strings.Contains(s, substr)`: `substr` occurs contiguously in `s`. -/
def Contains (s substr : String) : Bool :=
  decide (substr.data <:+: s.data)

/-- Go `strings.Join(elems, sep)`. -/
def Join (elems : List String) (sep : String) : String :=
  sep.intercalate elems

end strings

/-! ## The records of the provider SDK (`github.com/aws/aws-sdk-go/service/ecs`) -/

/-- The fields of `ecs.Container` the source reads, and the ARN that identifies it. -/
structure Container where
  ContainerArn : Option String := none
  Name : Option String := none
  deriving DecidableEq, Repr

/-- The fields of `ecs.Task` the source reads. -/
structure Task where
  TaskArn : Option String := none
  TaskDefinitionArn : Option String := none
  Containers : List Container := []
  deriving DecidableEq, Repr

/-- The value of `ecs.ListClustersInput{}`; the source sets none of its fields. -/
structure ListClustersInput where
  MaxResults : Option Nat := none
  deriving DecidableEq, Repr

structure ListClustersOutput where
  ClusterArns : List String
  deriving DecidableEq, Repr

structure ListTasksInput where
  Cluster : Option String
  deriving DecidableEq, Repr

structure ListTasksOutput where
  TaskArns : List String
  deriving DecidableEq, Repr

structure DescribeTasksInput where
  Cluster : Option String
  Tasks : List String
  deriving DecidableEq, Repr

structure DescribeTasksOutput where
  Tasks : List Task
  deriving DecidableEq, Repr

/-- The interface `ECSListClustersAPI` of the source: one method. -/
structure ECSListClustersAPI where
  ListClusters : ListClustersInput → Except GoError ListClustersOutput

/-- The two methods of `*ecs.ECS` the source calls. -/
structure ECS where
  ListTasks : ListTasksInput → Except GoError ListTasksOutput
  DescribeTasks : DescribeTasksInput → Except GoError DescribeTasksOutput

/-- The operator in front of a `survey.Select` prompt: given the question name, the
message and the options shown, either a choice or the error of an aborted prompt. -/
abbrev Operator := String → String → List String → Except GoError String

/-! ## Runs: trace of external calls and outcome -/

/-- What a run does to the outside world. -/
inductive Event where
  | ListClusters (input : ListClustersInput)
  | ListTasks (input : ListTasksInput)
  | DescribeTasks (input : DescribeTasksInput)
  | Ask (name message : String) (options : List String)
  | Println (line : String)
  deriving DecidableEq, Repr

/-- A run of a function: the events in order, then its result or the panic that ended it. -/
structure Run (α : Type) where
  trace : List Event
  result : Except Panic α

namespace Run

def pure {α : Type} (a : α) : Run α := ⟨[], .ok a⟩

def bind {α β : Type} (x : Run α) (f : α → Run β) : Run β :=
  match x.result with
  | .error p => ⟨x.trace, .error p⟩
  | .ok a => ⟨x.trace ++ (f a).trace, (f a).result⟩

/-- A computation without external calls that may panic. -/
def ofExcept {α : Type} (r : Except Panic α) : Run α := ⟨[], r⟩

/-- One external call with its answer. -/
def call {α : Type} (e : Event) (a : α) : Run α := ⟨[e], .ok a⟩

end Run

instance : Monad Run where
  pure := Run.pure
  bind := Run.bind

/-- The event is a prompt shown to the operator. -/
def Event.isAsk : Event → Bool
  | .Ask _ _ _ => true
  | _ => false

/-! ## Package `survey` and `fmt` -/

namespace survey

/-- Go `survey.Ask(qs, &answer)` for one `survey.Select` question: the prompt is
shown, the answer variable keeps its zero value when the prompt fails. -/
def Ask (op : Operator) (name message : String) (options : List String) :
    Run (String × Option GoError) :=
  match op name message options with
  | .ok choice => Run.call (.Ask name message options) (choice, none)
  | .error err => Run.call (.Ask name message options) ("", some err)

end survey

namespace fmt

/-- Go `fmt.Println(s)`. -/
def Println (s : String) : Run Unit := Run.call (.Println s) ()

end fmt

/-! ## `pkg/cmd/internal.go` -/

/-- Lines 58-62: the loop of `getCluster` over `list.ClusterArns`. -/
def clusterNamesLoop : List String → Except Panic (List String)
  | [] => .ok []
  | c :: rest => do
    let arnSplit := strings.Split c "/"
    let name ← index arnSplit (arnSplit.length - 1)
    let clusterNames ← clusterNamesLoop rest
    .ok (name :: clusterNames)

/-- Lines 121-140: `selectCluster`. -/
def selectCluster (op : Operator) (clusterNames : List String) :
    Run (String × Option GoError) := do
  let (clusterName, err) ← survey.Ask op "Cluster" "Cluster your task resides in:" clusterNames
  match err with
  | some e => do
    fmt.Println e.msg
    return ("", some e)
  | none => return (clusterName, none)

/-- Lines 49-73: `getCluster`. -/
def getCluster (client : ECSListClustersAPI) (op : Operator) :
    Run (String × Option GoError) := do
  let r ← Run.call (.ListClusters {}) (client.ListClusters {})
  match r with
  | .error err => return ("", some err)
  | .ok list =>
    if list.ClusterArns.length > 0 then do
      let clusterNames ← Run.ofExcept (clusterNamesLoop list.ClusterArns)
      let (selection, err) ← selectCluster op clusterNames
      match err with
      | some e => return ("", some e)
      | none => return (selection, none)
    else
      return ("", some ⟨"No clusters found in account or region"⟩)

/-- Lines 147-149: the inner loop of `selectTask` over `t.Containers`; also lines
188-190 of `selectContainer`. -/
def containerNamesLoop : List Container → Except Panic (List String)
  | [] => .ok []
  | c :: rest => do
    let name ← deref c.Name
    let names ← containerNamesLoop rest
    .ok (name :: names)

/-- Lines 150 and 175: `strings.Split(*t.TaskArn, "/")[2]`. -/
def taskShortId (t : Task) : Except Panic String := do
  let arn ← deref t.TaskArn
  index (strings.Split arn "/") 2

/-- Lines 146-152: the body of the first loop of `selectTask`, the label of one task. -/
def taskLabel (t : Task) : Except Panic String := do
  let containers ← containerNamesLoop t.Containers
  let id ← taskShortId t
  let tdArn ← deref t.TaskDefinitionArn
  let taskDefinion ← index (strings.Split tdArn "/") 1
  .ok (id ++ "\t" ++ taskDefinion ++ "\t(" ++ strings.Join containers "," ++ ")")

/-- Lines 145-153: the first loop of `selectTask`. -/
def taskOptionsLoop : List Task → Except Panic (List String)
  | [] => .ok []
  | t :: rest => do
    let option ← taskLabel t
    let options ← taskOptionsLoop rest
    .ok (option :: options)

/-- Lines 172-180: the second loop of `selectTask`, which stops at the first match. -/
def findTaskLoop (selection : String) : List Task → Except Panic (Option Task)
  | [] => .ok none
  | t :: rest => do
    let id ← taskShortId t
    if strings.Contains selection id then .ok (some t)
    else findTaskLoop selection rest

/-- Lines 143-183: `selectTask`. -/
def selectTask (op : Operator) (tasks : List Task) :
    Run (Option Task × Option GoError) := do
  let options ← Run.ofExcept (taskOptionsLoop tasks)
  let (selection, err) ← survey.Ask op "Task" "Task you would like to connect to:" options
  match err with
  | some e => do
    fmt.Println e.msg
    return (some {}, some e)
  | none => do
    let task ← Run.ofExcept (findTaskLoop selection tasks)
    return (task, none)

/-- Lines 76-102: `getTask`. -/
def getTask (client : ECS) (op : Operator) (clusterName : String) :
    Run (Option Task × Option GoError) := do
  let r ← Run.call (.ListTasks ⟨some clusterName⟩) (client.ListTasks ⟨some clusterName⟩)
  match r with
  | .error err => return (none, some err)
  | .ok list =>
    if list.TaskArns.length > 0 then do
      let input : DescribeTasksInput := ⟨some clusterName, list.TaskArns⟩
      let d ← Run.call (.DescribeTasks input) (client.DescribeTasks input)
      match d with
      | .error err => return (none, some err)
      | .ok describe => do
        let (selection, err) ← selectTask op describe.Tasks
        match err with
        | some e => return (none, some e)
        | none => return (selection, none)
    else
      return (none, some ⟨"There are no running tasks in the cluster " ++ clusterName⟩)

/-- Lines 209-214: the last loop of `selectContainer`; it has no `break`, so a later
match replaces an earlier one. -/
def findContainerLoop (selection : String) :
    List Container → Option Container → Except Panic (Option Container)
  | [], container => .ok container
  | c :: rest, container => do
    let name ← deref c.Name
    if strings.Contains name selection then findContainerLoop selection rest (some c)
    else findContainerLoop selection rest container

/-- The message of the container prompt (line 197). -/
def containerMessage : String :=
  "More than one container in task, please choose the one you would like to connect to:"

/-- Lines 186-217: `selectContainer`. -/
def selectContainer (op : Operator) (containers : List Container) :
    Run (Option Container × Option GoError) := do
  let containerNames ← Run.ofExcept (containerNamesLoop containers)
  let (selection, err) ← survey.Ask op "Container" containerMessage containerNames
  match err with
  | some e => do
    fmt.Println e.msg
    return (some {}, some e)
  | none => do
    let container ← Run.ofExcept (findContainerLoop selection containers none)
    return (container, none)

/-- Lines 106-118: `getContainer` (the client argument is not used by the source). -/
def getContainer (_client : ECS) (op : Operator) (task : Task) :
    Run (Option Container × Option GoError) :=
  if task.Containers.length > 1 then do
    let (selection, err) ← selectContainer op task.Containers
    match err with
    | some e => return (some {}, some e)
    | none => return (selection, none)
  else do
    let only ← Run.ofExcept (index task.Containers 0)
    return (some only, none)


/-! ## Specification side: the last path segment of a resource name -/

/-- The part of `s` after its last `'/'` (all of `s` when it has none). -/
def lastSegmentChars : List Char → List Char
  | [] => []
  | c :: cs => if c = '/' ∨ '/' ∈ cs then lastSegmentChars cs else c :: cs

/-- The substring of a resource name after its last `'/'`. -/
def lastSegment (s : String) : String := ⟨lastSegmentChars s.data⟩

/-- The shape of a described task that `selectTask` relies on: a task resource name
`a/b/shortId` (exactly two `'/'`), a task-definition resource name with at least one
`'/'`, and containers that all carry a name. -/
def Task.Described (t : Task) : Prop :=
  (∃ arn, t.TaskArn = some arn ∧ arn.data.count '/' = 2) ∧
  (∃ td, t.TaskDefinitionArn = some td ∧ 1 ≤ td.data.count '/') ∧
  ∃ names : List String, t.Containers.map Container.Name = names.map some

/-! ## `runCommand` (lines 221-244): the caller, the listener goroutine and the channel -/

/-- The signals that `signal.Notify` routes to the channel (line 228). -/
inductive Signal where
  | SIGINT
  | SIGTERM
  deriving DecidableEq, Repr

/-- The channel `sigs` of line 227, `make(chan os.Signal, 1)`: at most one buffered
signal, and whether `close(sigs)` has run. -/
structure SigChan where
  buffer : List Signal
  closed : Bool
  deriving DecidableEq, Repr

/-- Where the goroutine that called `runCommand` stands. -/
inductive Caller where
  /-- Inside `cmd.Run()` (line 239), waiting for the child. -/
  | waiting
  /-- `cmd.Run()` has returned `err`; the deferred `close(sigs)` has not run yet. -/
  | leaving (err : Option GoError)
  /-- `runCommand` has returned `err` to its caller. -/
  | returned (err : Option GoError)
  deriving DecidableEq, Repr

/-- The state of the program from line 239 on. `exited` is the status passed to
`os.Exit` once the program has been terminated. -/
structure ProcState where
  sigs : SigChan
  caller : Caller
  exited : Option Nat
  deriving DecidableEq, Repr

/-- What can happen next; the scheduler and the outside world choose. -/
inductive Step where
  /-- The OS delivers a signal while the channel is open; `signal.Notify` passes it on
  without blocking, so it is dropped when the buffer is full. -/
  | deliver (s : Signal)
  /-- The child is over: `cmd.Run()` returns `err` (nil for exit status zero). -/
  | childDone (err : Option GoError)
  /-- The caller leaves `runCommand`: the deferred `close(sigs)` of line 237 runs and
  the function returns. -/
  | callerReturn
  /-- The listener goroutine of lines 229-236 runs its `select`: the receive proceeds
  when a signal is buffered or the channel is closed, and then `os.Exit(0)`. -/
  | listener
  deriving DecidableEq, Repr

namespace runCommand

/-- The state when the caller enters `cmd.Run()`: channel made, listener started. -/
def init : ProcState := ⟨⟨[], false⟩, .waiting, none⟩

/-- One step; `none` when the step cannot be taken in this state. -/
def step (st : ProcState) : Step → Option ProcState
  | .deliver s =>
    if st.exited.isSome || st.sigs.closed then none
    else if st.sigs.buffer.length < 1 then
      some { st with sigs := { st.sigs with buffer := st.sigs.buffer ++ [s] } }
    else some st
  | .childDone err =>
    match st.exited, st.caller with
    | none, .waiting => some { st with caller := .leaving err }
    | _, _ => none
  | .callerReturn =>
    match st.exited, st.caller with
    | none, .leaving err =>
      some { st with sigs := { st.sigs with closed := true }, caller := .returned err }
    | _, _ => none
  | .listener =>
    if st.exited.isSome then none
    else
      match st.sigs.buffer with
      | _ :: rest => some { st with sigs := { st.sigs with buffer := rest }, exited := some 0 }
      | [] => if st.sigs.closed then some { st with exited := some 0 } else none

/-- A schedule of steps from a state. -/
def exec (st : ProcState) : List Step → Option ProcState
  | [] => some st
  | s :: rest =>
    match step st s with
    | some st2 => exec st2 rest
    | none => none

end runCommand

/-- The step is the delivery of a signal. -/
def Step.isDeliver : Step → Bool
  | .deliver _ => true
  | _ => false

/-! ## Sample inputs -/

/-- An operator who takes the option at index `k`, and aborts when there is none. -/
def operatorPicking (k : Nat) : Operator := fun _ _ options =>
  match options[k]? with
  | some choice => .ok choice
  | none => .error ⟨"interrupt"⟩

/-- A provider with the two clusters of the scenario of the specification. -/
def twoClusters : ECSListClustersAPI :=
  ⟨fun _ => .ok ⟨["arn:...:cluster/prod", "arn:...:cluster/dev"]⟩⟩

/-- A provider without clusters. -/
def noClusters : ECSListClustersAPI := ⟨fun _ => .ok ⟨[]⟩⟩

def webContainer : Container := { ContainerArn := some "arn:aws:ecs:c/1", Name := some "web" }

def logContainer : Container :=
  { ContainerArn := some "arn:aws:ecs:c/2", Name := some "log-router" }

def appContainer : Container := { ContainerArn := some "arn:aws:ecs:c/3", Name := some "app" }

def sidecarContainer : Container :=
  { ContainerArn := some "arn:aws:ecs:c/4", Name := some "app-sidecar" }

def webTask : Task :=
  { TaskArn := some "arn:aws:ecs:us-east-1:123456789012:task/prod/7f3a9c",
    TaskDefinitionArn := some "arn:aws:ecs:us-east-1:123456789012:task-definition/web:3",
    Containers := [webContainer, logContainer] }

def workerTask : Task :=
  { TaskArn := some "arn:aws:ecs:us-east-1:123456789012:task/prod/7f3a",
    TaskDefinitionArn := some "arn:aws:ecs:us-east-1:123456789012:task-definition/worker:1",
    Containers := [appContainer] }

def appTask : Task :=
  { TaskArn := some "arn:aws:ecs:us-east-1:123456789012:task/prod/51c2e8",
    TaskDefinitionArn := some "arn:aws:ecs:us-east-1:123456789012:task-definition/app:7",
    Containers := [appContainer, sidecarContainer] }

/-- A task whose resource name has four segments. -/
def nestedTask : Task :=
  { TaskArn := some "arn:aws:ecs:us-east-1:123456789012:task/prod/blue/7f3a9c",
    TaskDefinitionArn := some "arn:aws:ecs:us-east-1:123456789012:task-definition/web:3",
    Containers := [webContainer] }

/-- A task whose resource name has two segments (the short ARN format). -/
def shortArnTask : Task :=
  { TaskArn := some "arn:aws:ecs:us-east-1:123456789012:task/7f3a9c",
    TaskDefinitionArn := some "arn:aws:ecs:us-east-1:123456789012:task-definition/web:3",
    Containers := [webContainer] }

/-- A provider with two running tasks in every cluster. -/
def twoTasks : ECS :=
  ⟨fun _ => .ok ⟨["arn:aws:ecs:us-east-1:123456789012:task/prod/7f3a9c",
      "arn:aws:ecs:us-east-1:123456789012:task/prod/51c2e8"]⟩,
    fun _ => .ok ⟨[webTask, appTask]⟩⟩

/-- A provider without running tasks. -/
def noTasks : ECS := ⟨fun _ => .ok ⟨[]⟩, fun _ => .ok ⟨[]⟩⟩

/-! ## Lemmas on `strings.Split` with the separator `"/"` -/

theorem lastSegmentChars_no_slash (s : List Char) : '/' ∉ lastSegmentChars s := by
  induction s with
  | nil => simp [lastSegmentChars]
  | cons c cs ih =>
    unfold lastSegmentChars
    split_ifs with h
    · exact ih
    · intro hmem
      rcases List.mem_cons.1 hmem with h1 | h1
      · exact h (Or.inl h1.symm)
      · exact h (Or.inr h1)

theorem lastSegmentChars_decomp (s : List Char) (h : '/' ∈ s) :
    ∃ p, s = p ++ '/' :: lastSegmentChars s := by
  induction s with
  | nil => simp at h
  | cons c cs ih =>
    by_cases hcs : '/' ∈ cs
    · obtain ⟨p, hp⟩ := ih hcs
      refine ⟨c :: p, ?_⟩
      have : lastSegmentChars (c :: cs) = lastSegmentChars cs := by
        simp [lastSegmentChars, hcs]
      rw [this]
      simpa using hp
    · have hc : c = '/' := by
        rcases List.mem_cons.1 h with h1 | h1
        · exact h1.symm
        · exact absurd h1 hcs
      subst hc
      have hseg : ∀ t : List Char, '/' ∉ t → lastSegmentChars t = t := by
        intro t ht
        cases t with
        | nil => rfl
        | cons d ds =>
          have hd : ¬ (d = '/' ∨ '/' ∈ ds) := by
            rintro (h1 | h1)
            · exact ht (by simp [h1])
            · exact ht (List.mem_cons_of_mem _ h1)
          simp [lastSegmentChars, hd]
      refine ⟨[], ?_⟩
      have : lastSegmentChars ('/' :: cs) = lastSegmentChars cs := by
        simp [lastSegmentChars]
      rw [this, hseg cs hcs]
      rfl

theorem splitOnList_slash_cons (c : Char) (cs : List Char) :
    strings.splitOnList ['/'] (c :: cs) 0 =
      if c = '/' then [] :: strings.splitOnList ['/'] cs 0
      else
        match strings.splitOnList ['/'] cs 0 with
        | [] => [[c]]
        | p :: ps => (c :: p) :: ps := by
  have hp : (['/'] <+: (c :: cs)) ↔ c = '/' := by
    simp [List.cons_prefix_cons, eq_comm]
  by_cases hc : c = '/'
  · simp [strings.splitOnList, hc]
  · have hn : ¬ (['/'] <+: (c :: cs)) := fun h => hc (hp.1 h)
    simp only [strings.splitOnList, hn, hc, if_false]

theorem splitOnList_slash_length (s : List Char) :
    (strings.splitOnList ['/'] s 0).length = s.count '/' + 1 := by
  induction s with
  | nil => simp [strings.splitOnList]
  | cons c cs ih =>
    rw [splitOnList_slash_cons]
    by_cases hc : c = '/'
    · subst hc
      simp [ih]
    · cases hsp : strings.splitOnList ['/'] cs 0 with
      | nil => rw [hsp] at ih; simp at ih
      | cons p ps =>
        rw [hsp] at ih
        simp only [hc, if_false, List.length_cons] at ih ⊢
        rw [List.count_cons_of_ne (Ne.symm hc)]
        omega

theorem splitOnList_slash_getLast (s : List Char) :
    (strings.splitOnList ['/'] s 0).getLast? = some (lastSegmentChars s) := by
  induction s with
  | nil => simp [strings.splitOnList, lastSegmentChars]
  | cons c cs ih =>
    rw [splitOnList_slash_cons]
    have hlen := splitOnList_slash_length cs
    cases hsp : strings.splitOnList ['/'] cs 0 with
    | nil => rw [hsp] at hlen; simp at hlen
    | cons p ps =>
      rw [hsp] at ih hlen
      by_cases hc : c = '/'
      · subst hc
        simp only [if_true]
        rw [List.getLast?_cons_cons, ih]
        simp [lastSegmentChars]
      · simp only [hc, if_false]
        by_cases hcs : '/' ∈ cs
        · have hpos : 0 < cs.count '/' := List.count_pos_iff.2 hcs
          cases ps with
          | nil => simp at hlen; omega
          | cons q qs =>
            rw [List.getLast?_cons_cons] at ih ⊢
            rw [ih]
            simp [lastSegmentChars, hcs]
        · have hz : cs.count '/' = 0 := List.count_eq_zero.2 hcs
          cases ps with
          | nil =>
            simp only [List.getLast?_singleton, Option.some.injEq] at ih ⊢
            have hseg : lastSegmentChars (c :: cs) = c :: cs := by
              simp [lastSegmentChars, hc, hcs]
            rw [hseg]
            have hcs2 : lastSegmentChars cs = cs := by
              cases cs with
              | nil => rfl
              | cons d ds =>
                have hd : ¬ (d = '/' ∨ '/' ∈ ds) := by
                  rintro (h1 | h1)
                  · exact hcs (by simp [h1])
                  · exact hcs (List.mem_cons_of_mem _ h1)
                simp [lastSegmentChars, hd]
            rw [ih, hcs2]
          | cons q qs => simp at hlen; omega

theorem Split_slash (s : String) :
    strings.Split s "/" = (strings.splitOnList ['/'] s.data 0).map String.mk := by
  have h : ("/" : String).data = ['/'] := rfl
  unfold strings.Split
  rw [h, if_neg (List.cons_ne_nil _ _)]


theorem index_length_pred {α : Type} (xs : List α) (x : α) (h : xs.getLast? = some x) :
    index xs (xs.length - 1) = .ok x := by
  unfold index
  rw [List.getLast?_eq_getElem?] at h
  rw [h]

theorem index_Split_last (c : String) :
    index (strings.Split c "/") ((strings.Split c "/").length - 1) = .ok (lastSegment c) := by
  apply index_length_pred
  rw [Split_slash, List.getLast?_map, splitOnList_slash_getLast]
  rfl

theorem clusterNamesLoop_eq (arns : List String) :
    clusterNamesLoop arns = .ok (arns.map lastSegment) := by
  induction arns with
  | nil => rfl
  | cons c rest ih =>
    simp only [clusterNamesLoop, index_Split_last, ih, List.map_cons]
    rfl

/-! ## The cluster stage -/

/-- C4: when `ListClusters` succeeds with no cluster, `getCluster` returns the empty
name with the error "No clusters found in account or region", and its only external
call is `ListClusters`: no prompt, no further provider call. -/
theorem getCluster_no_clusters (client : ECSListClustersAPI) (op : Operator)
    (h : client.ListClusters {} = .ok ⟨[]⟩) :
    getCluster client op =
      ⟨[.ListClusters {}], .ok ("", some ⟨"No clusters found in account or region"⟩)⟩ := by
  simp [getCluster, h, bind, Run.bind, Run.call, pure, Run.pure]

/-- C7: for a non-empty list of cluster resource names, `getCluster` shows exactly one
prompt, whose options are the substrings after the last `'/'` of the names, in order;
it returns the operator's choice unchanged; and `lastSegment` is what follows the
last `'/'` of a name that has one. -/
theorem getCluster_prompts_once (client : ECSListClustersAPI) (op : Operator)
    (arns : List String) (hne : arns ≠ []) (h : client.ListClusters {} = .ok ⟨arns⟩) :
    (getCluster client op).trace.filter Event.isAsk =
        [.Ask "Cluster" "Cluster your task resides in:" (arns.map lastSegment)]
    ∧ (∀ choice,
        op "Cluster" "Cluster your task resides in:" (arns.map lastSegment) = .ok choice →
        (getCluster client op).result = .ok (choice, none))
    ∧ (∀ arn ∈ arns, '/' ∈ arn.data →
        ∃ p : String, arn = p ++ "/" ++ lastSegment arn ∧ '/' ∉ (lastSegment arn).data) := by
  have hlen : arns.length > 0 := List.length_pos.2 hne
  refine ⟨?_, ?_, ?_⟩
  · cases hop : op "Cluster" "Cluster your task resides in:" (arns.map lastSegment) <;>
      simp [getCluster, h, hlen, clusterNamesLoop_eq, selectCluster, survey.Ask, fmt.Println,
        hop, bind, Run.bind, Run.call, Run.ofExcept, pure, Run.pure, Event.isAsk]
  · intro choice hop
    simp [getCluster, h, hlen, clusterNamesLoop_eq, selectCluster, survey.Ask,
      hop, bind, Run.bind, Run.call, Run.ofExcept, pure, Run.pure]
  · intro arn _ hslash
    obtain ⟨p, hp⟩ := lastSegmentChars_decomp arn.data hslash
    refine ⟨⟨p⟩, ?_, lastSegmentChars_no_slash arn.data⟩
    apply String.ext
    simp only [String.data_append, lastSegment]
    simpa using hp

/-! ## The task stage -/

theorem selectTask_trace_no_describe (op : Operator) (tasks : List Task)
    (input : DescribeTasksInput) :
    Event.DescribeTasks input ∉ (selectTask op tasks).trace := by
  cases ho : taskOptionsLoop tasks with
  | error p => simp [selectTask, ho, bind, Run.bind, Run.ofExcept]
  | ok options =>
    cases hop : op "Task" "Task you would like to connect to:" options with
    | error e =>
      simp [selectTask, ho, hop, survey.Ask, fmt.Println, bind, Run.bind, Run.ofExcept,
        Run.call, pure, Run.pure]
    | ok choice =>
      cases hf : findTaskLoop choice tasks <;>
        simp [selectTask, ho, hop, hf, survey.Ask, bind, Run.bind, Run.ofExcept,
          Run.call, pure, Run.pure]

/-- C5: when `ListTasks` for the cluster succeeds with no task id, `getTask` returns no
task and the error naming the cluster, and its only external call is `ListTasks`;
and in every run of `getTask` a `DescribeTasks` call carries a non-empty id list. -/
theorem getTask_no_tasks (client : ECS) (op : Operator) (clusterName : String) :
    (client.ListTasks ⟨some clusterName⟩ = .ok ⟨[]⟩ →
      getTask client op clusterName =
        ⟨[.ListTasks ⟨some clusterName⟩],
          .ok (none, some ⟨"There are no running tasks in the cluster " ++ clusterName⟩)⟩)
    ∧ (∀ input, Event.DescribeTasks input ∈ (getTask client op clusterName).trace →
        input.Cluster = some clusterName ∧ input.Tasks ≠ []) := by
  constructor
  · intro h
    simp [getTask, h, bind, Run.bind, Run.call, pure, Run.pure]
  · intro input hmem
    cases hl : client.ListTasks ⟨some clusterName⟩ with
    | error e =>
      simp [getTask, hl, bind, Run.bind, Run.call, pure, Run.pure] at hmem
    | ok list =>
      by_cases hlen : list.TaskArns.length > 0
      · have hne : list.TaskArns ≠ [] := List.length_pos.1 hlen
        cases hd : client.DescribeTasks ⟨some clusterName, list.TaskArns⟩ with
        | error e =>
          simp [getTask, hl, hlen, hd, bind, Run.bind, Run.call, pure, Run.pure] at hmem
          subst hmem
          exact ⟨rfl, hne⟩
        | ok describe =>
          have hsel := selectTask_trace_no_describe op describe.Tasks input
          cases hs : (selectTask op describe.Tasks).result with
          | error p =>
            simp [getTask, hl, hlen, hd, hs, bind, Run.bind, Run.call, pure, Run.pure,
              hsel] at hmem
            subst hmem
            exact ⟨rfl, hne⟩
          | ok r =>
            obtain ⟨sel, err⟩ := r
            cases err <;>
              simp [getTask, hl, hlen, hd, hs, bind, Run.bind, Run.call, pure, Run.pure,
                hsel] at hmem <;>
              (subst hmem; exact ⟨rfl, hne⟩)
      · simp [getTask, hl, hlen, bind, Run.bind, Run.call, pure, Run.pure] at hmem

/-! ## The container stage -/

/-- C6: for a task with exactly one container, `getContainer` returns that container
with no error and performs no external call, so no prompt is shown. -/
theorem getContainer_single (client : ECS) (op : Operator) (task : Task) (c : Container)
    (h : task.Containers = [c]) :
    getContainer client op task = ⟨[], .ok (some c, none)⟩ := by
  simp [getContainer, h, index, bind, Run.bind, Run.ofExcept, pure, Run.pure]

/-- C9: on a task without containers `getContainer` is ended by the runtime panic
`index out of range [0] with length 0`. -/
theorem getContainer_empty_panics (client : ECS) (op : Operator)
    (arn definition : Option String) :
    getContainer client op ⟨arn, definition, []⟩ = ⟨[], .error (.indexOutOfRange 0 0)⟩ := by
  simp [getContainer, index, bind, Run.bind, Run.ofExcept]
/-! ## The container stage: the recovery loop -/

theorem Contains_self (s : String) : strings.Contains s s = true := by
  simp [strings.Contains]

theorem containerNamesLoop_of_names (containers : List Container) (names : List String)
    (h : containers.map Container.Name = names.map some) :
    containerNamesLoop containers = .ok names := by
  induction containers generalizing names with
  | nil =>
    cases names with
    | nil => rfl
    | cons n ns => simp at h
  | cons c rest ih =>
    cases names with
    | nil => simp at h
    | cons n ns =>
      simp only [List.map_cons, List.cons.injEq] at h
      simp only [containerNamesLoop, h.1, deref, ih ns h.2]
      rfl

theorem containerNamesLoop_names (containers : List Container) (names : List String)
    (h : containerNamesLoop containers = .ok names) :
    containers.map Container.Name = names.map some := by
  induction containers generalizing names with
  | nil =>
    simp only [containerNamesLoop, Except.ok.injEq] at h
    subst h
    rfl
  | cons c rest ih =>
    cases hn : c.Name with
    | none => simp [containerNamesLoop, hn, deref, bind, Except.bind] at h
    | some n =>
      cases hr : containerNamesLoop rest with
      | error p => simp [containerNamesLoop, hn, hr, deref, bind, Except.bind] at h
      | ok ns =>
        simp [containerNamesLoop, hn, hr, deref, bind, Except.bind] at h
        subst h
        simp [hn, ih ns hr]

/-- The last loop of `selectContainer` ends with its variable unchanged or set to an
element of the list. -/
theorem findContainerLoop_cases (selection : String) (containers : List Container)
    (names : List String) (acc : Option Container)
    (hnames : containers.map Container.Name = names.map some) :
    findContainerLoop selection containers acc = .ok acc ∨
      ∃ c ∈ containers, findContainerLoop selection containers acc = .ok (some c) := by
  induction containers generalizing names acc with
  | nil => exact Or.inl rfl
  | cons c rest ih =>
    cases names with
    | nil => simp at hnames
    | cons n ns =>
      simp only [List.map_cons, List.cons.injEq] at hnames
      by_cases hc : strings.Contains n selection = true
      · have hstep : findContainerLoop selection (c :: rest) acc =
            findContainerLoop selection rest (some c) := by
          simp [findContainerLoop, hnames.1, deref, hc, bind, Except.bind]
        rw [hstep]
        rcases ih ns (some c) hnames.2 with h | ⟨d, hd, h⟩
        · exact Or.inr ⟨c, List.mem_cons_self _ _, h⟩
        · exact Or.inr ⟨d, List.mem_cons_of_mem _ hd, h⟩
      · have hstep : findContainerLoop selection (c :: rest) acc =
            findContainerLoop selection rest acc := by
          simp [findContainerLoop, hnames.1, deref, hc, bind, Except.bind]
        rw [hstep]
        rcases ih ns acc hnames.2 with h | ⟨d, hd, h⟩
        · exact Or.inl h
        · exact Or.inr ⟨d, List.mem_cons_of_mem _ hd, h⟩

/-- When the selection is one of the names, the last loop of `selectContainer` ends on
an element of the list. -/
theorem findContainerLoop_of_mem (selection : String) (containers : List Container)
    (names : List String) (acc : Option Container)
    (hnames : containers.map Container.Name = names.map some)
    (hsel : selection ∈ names) :
    ∃ c ∈ containers, findContainerLoop selection containers acc = .ok (some c) := by
  induction containers generalizing names acc with
  | nil =>
    cases names with
    | nil => simp at hsel
    | cons n ns => simp at hnames
  | cons c rest ih =>
    cases names with
    | nil => simp at hnames
    | cons n ns =>
      simp only [List.map_cons, List.cons.injEq] at hnames
      by_cases hc : strings.Contains n selection = true
      · have hstep : findContainerLoop selection (c :: rest) acc =
            findContainerLoop selection rest (some c) := by
          simp [findContainerLoop, hnames.1, deref, hc, bind, Except.bind]
        rw [hstep]
        rcases findContainerLoop_cases selection rest ns (some c) hnames.2 with h | ⟨d, hd, h⟩
        · exact ⟨c, List.mem_cons_self _ _, h⟩
        · exact ⟨d, List.mem_cons_of_mem _ hd, h⟩
      · have hne : selection ≠ n := by
          rintro rfl
          exact hc (Contains_self _)
        have hsel2 : selection ∈ ns := by
          rcases List.mem_cons.1 hsel with h | h
          · exact absurd h hne
          · exact h
        have hstep : findContainerLoop selection (c :: rest) acc =
            findContainerLoop selection rest acc := by
          simp [findContainerLoop, hnames.1, deref, hc, bind, Except.bind]
        rw [hstep]
        obtain ⟨d, hd, h⟩ := ih ns acc hnames.2 hsel2
        exact ⟨d, List.mem_cons_of_mem _ hd, h⟩

/-- C3: when every answer of the operator is one of the options shown, a container
that `getContainer` returns with a nil error is an element of the container list of
the task; in particular it is not nil. -/
theorem getContainer_returns_member (client : ECS) (op : Operator) (task : Task)
    (hop : ∀ name message options choice,
      op name message options = .ok choice → choice ∈ options)
    (container : Option Container)
    (hret : (getContainer client op task).result = .ok (container, none)) :
    ∃ c, container = some c ∧ c ∈ task.Containers := by
  by_cases hlen : task.Containers.length > 1
  · cases hn : containerNamesLoop task.Containers with
    | error p =>
      simp [getContainer, hlen, selectContainer, hn, bind, Run.bind, Run.ofExcept] at hret
    | ok names =>
      have hnames := containerNamesLoop_names _ _ hn
      cases ho : op "Container" containerMessage names with
      | error e =>
        simp [getContainer, hlen, selectContainer, hn, ho, survey.Ask, fmt.Println,
          bind, Run.bind, Run.ofExcept, Run.call, pure, Run.pure] at hret
      | ok choice =>
        obtain ⟨c, hc, hfind⟩ :=
          findContainerLoop_of_mem choice task.Containers names none hnames (hop _ _ _ _ ho)
        simp [getContainer, hlen, selectContainer, hn, ho, hfind, survey.Ask,
          bind, Run.bind, Run.ofExcept, Run.call, pure, Run.pure] at hret
        exact ⟨c, hret.symm, hc⟩
  · cases hcs : task.Containers with
    | nil =>
      simp [getContainer, hcs, index, bind, Run.bind, Run.ofExcept] at hret
    | cons c rest =>
      rw [hcs] at hlen
      have hrest : ¬ (0 < rest.length) := by simpa using hlen
      simp [getContainer, hcs, hrest, index, bind, Run.bind, Run.ofExcept, pure, Run.pure]
        at hret
      exact ⟨c, hret.symm, List.mem_cons_self _ _⟩
/-! ## The task stage: labels and recovery -/

theorem index_of_lt {α : Type} (xs : List α) (i : Nat) (h : i < xs.length) :
    ∃ x, index xs i = .ok x := by
  refine ⟨xs[i], ?_⟩
  simp [index, List.getElem?_eq_getElem h]

theorem taskShortId_of_three (t : Task) (arn : String) (harn : t.TaskArn = some arn)
    (hcount : arn.data.count '/' = 2) :
    taskShortId t = .ok (lastSegment arn) := by
  have hlen : (strings.Split arn "/").length = 3 := by
    rw [Split_slash, List.length_map, splitOnList_slash_length, hcount]
  have hlast := index_Split_last arn
  rw [hlen] at hlast
  simp only [taskShortId, harn, deref]
  exact hlast

theorem taskLabel_of_described (t : Task) (h : t.Described) :
    ∃ arn rest, t.TaskArn = some arn ∧ arn.data.count '/' = 2 ∧
      taskShortId t = .ok (lastSegment arn) ∧
      taskLabel t = .ok (lastSegment arn ++ "\t" ++ rest) := by
  obtain ⟨⟨arn, harn, hcount⟩, ⟨td, htd, htdcount⟩, ⟨names, hnames⟩⟩ := h
  have hid := taskShortId_of_three t arn harn hcount
  have hlen : 1 < (strings.Split td "/").length := by
    rw [Split_slash, List.length_map, splitOnList_slash_length]
    omega
  obtain ⟨definition, hdef⟩ := index_of_lt _ 1 hlen
  have hloop := containerNamesLoop_of_names _ _ hnames
  refine ⟨arn, definition ++ "\t(" ++ strings.Join names "," ++ ")", harn, hcount, hid, ?_⟩
  simp only [taskLabel, hloop, hid, htd, deref, hdef, bind, Except.bind,
    String.append_assoc]

theorem Contains_append_left (s rest : String) : strings.Contains (s ++ rest) s = true := by
  simp only [strings.Contains, String.data_append, decide_eq_true_eq]
  exact (List.prefix_append _ _).isInfix

theorem taskOptionsLoop_of_described (tasks : List Task) (h : ∀ t ∈ tasks, t.Described) :
    ∃ labels : List String, taskOptionsLoop tasks = .ok labels ∧
      labels.length = tasks.length ∧
      ∀ (i : Nat) (t : Task) (label : String), tasks[i]? = some t →
        labels[i]? = some label → taskLabel t = .ok label := by
  induction tasks with
  | nil => exact ⟨[], rfl, rfl, by simp⟩
  | cons u rest ih =>
    obtain ⟨labels, hl, hlen, hall⟩ := ih (fun t ht => h t (List.mem_cons_of_mem _ ht))
    obtain ⟨arn, tail, _, _, _, hlabel⟩ := taskLabel_of_described u (h u (List.mem_cons_self _ _))
    refine ⟨(lastSegment arn ++ "\t" ++ tail) :: labels, ?_, by simp [hlen], ?_⟩
    · simp only [taskOptionsLoop, hlabel, hl, bind, Except.bind]
    · intro i t label ht hlb
      cases i with
      | zero =>
        simp only [List.getElem?_cons_zero, Option.some.injEq] at ht hlb
        subst ht hlb
        exact hlabel
      | succ k =>
        simp only [List.getElem?_cons_succ] at ht hlb
        exact hall k t label ht hlb

/-- When no earlier short id occurs in the selection and the short id of the task at
index `i` does, the second loop of `selectTask` stops at index `i`. -/
theorem findTaskLoop_chosen (selection : String) (tasks : List Task) (i : Nat) (t : Task)
    (id : String) (hform : ∀ u ∈ tasks, u.Described)
    (ht : tasks[i]? = some t) (hid : taskShortId t = .ok id)
    (hin : strings.Contains selection id = true)
    (hearlier : ∀ (j : Nat) (u : Task) (arn : String), j < i → tasks[j]? = some u →
      u.TaskArn = some arn →
      strings.Contains selection (lastSegment arn) = false) :
    findTaskLoop selection tasks = .ok (some t) := by
  induction tasks generalizing i with
  | nil => simp at ht
  | cons u rest ih =>
    cases i with
    | zero =>
      simp only [List.getElem?_cons_zero, Option.some.injEq] at ht
      subst ht
      simp [findTaskLoop, hid, hin, bind, Except.bind]
    | succ k =>
      simp only [List.getElem?_cons_succ] at ht
      obtain ⟨arn, _, harn, _, huid, _⟩ :=
        taskLabel_of_described u (hform u (List.mem_cons_self _ _))
      have hu : strings.Contains selection (lastSegment arn) = false :=
        hearlier 0 u arn (Nat.succ_pos k) (by simp) harn
      have hrest := ih k (fun v hv => hform v (List.mem_cons_of_mem _ hv)) ht
        (fun j v a hj hv ha => hearlier (j + 1) v a (Nat.succ_lt_succ hj) (by simpa using hv) ha)
      simp [findTaskLoop, huid, hu, hrest, bind, Except.bind]

/-- C1, amended: for a non-empty list of described tasks (task resource names
`a/b/shortId`, task-definition resource names with a `'/'`, named containers),
`selectTask` builds one label per task; and for every index `i` such that no task at
an earlier index has a short id that occurs in the `i`-th label: when the operator
chooses the `i`-th label, `selectTask` shows one prompt with the labels and returns
the `i`-th task with no error. -/
theorem selectTask_returns_chosen (op : Operator) (tasks : List Task)
    (_hne : tasks ≠ []) (hform : ∀ t ∈ tasks, t.Described) :
    ∃ labels : List String, taskOptionsLoop tasks = .ok labels ∧
      labels.length = tasks.length ∧
      ∀ (i : Nat) (t : Task) (label : String), tasks[i]? = some t →
        labels[i]? = some label →
        op "Task" "Task you would like to connect to:" labels = .ok label →
        (∀ (j : Nat) (u : Task) (arn : String), j < i → tasks[j]? = some u →
          u.TaskArn = some arn →
          strings.Contains label (lastSegment arn) = false) →
        selectTask op tasks =
          ⟨[.Ask "Task" "Task you would like to connect to:" labels],
            .ok (some t, none)⟩ := by
  obtain ⟨labels, hl, hlen, hall⟩ := taskOptionsLoop_of_described tasks hform
  refine ⟨labels, hl, hlen, ?_⟩
  intro i t label ht hlb hchoice hearlier
  have hmem : t ∈ tasks := List.getElem?_mem ht
  obtain ⟨arn, tail, _, _, hid, hlabel⟩ := taskLabel_of_described t (hform t hmem)
  have hlabel2 := hall i t label ht hlb
  rw [hlabel] at hlabel2
  have hlabel3 : lastSegment arn ++ "\t" ++ tail = label := Except.ok.inj hlabel2
  have hin : strings.Contains label (lastSegment arn) = true := by
    rw [← hlabel3, String.append_assoc]
    exact Contains_append_left _ _
  have hfind := findTaskLoop_chosen label tasks i t (lastSegment arn) hform ht hid hin hearlier
  simp [selectTask, hl, hchoice, hfind, survey.Ask, bind, Run.bind, Run.ofExcept,
    Run.call, pure, Run.pure]
/-! ## Evaluations on sample inputs -/

theorem operatorPicking_mem (k : Nat) (name message : String) (options : List String)
    (choice : String) (h : operatorPicking k name message options = .ok choice) :
    choice ∈ options := by
  unfold operatorPicking at h
  cases hk : options[k]? with
  | none => simp [hk] at h
  | some o =>
    simp only [hk, Except.ok.injEq] at h
    subst h
    exact List.getElem?_mem hk


/-- Witness of C4: a provider without clusters. -/
theorem getCluster_no_clusters_witness :
    noClusters.ListClusters {} = .ok ⟨[]⟩ ∧
    getCluster noClusters (operatorPicking 0) =
      ⟨[.ListClusters {}], .ok ("", some ⟨"No clusters found in account or region"⟩)⟩ :=
  ⟨rfl, getCluster_no_clusters noClusters (operatorPicking 0) rfl⟩

/-- Witness of C7: the scenario of the specification, the operator takes "dev". -/
theorem getCluster_prompts_once_witness :
    (getCluster twoClusters (operatorPicking 1)).trace.filter Event.isAsk =
        [.Ask "Cluster" "Cluster your task resides in:" ["prod", "dev"]]
    ∧ (getCluster twoClusters (operatorPicking 1)).result = .ok ("dev", none) :=
  have h := getCluster_prompts_once twoClusters (operatorPicking 1)
    ["arn:...:cluster/prod", "arn:...:cluster/dev"] (by decide) rfl
  ⟨h.1, h.2.1 "dev" rfl⟩

/-- Witness of C5: a cluster without running tasks, and a cluster with two. -/
theorem getTask_no_tasks_witness :
    noTasks.ListTasks ⟨some "prod"⟩ = .ok ⟨[]⟩
    ∧ getTask noTasks (operatorPicking 0) "prod" =
        ⟨[.ListTasks ⟨some "prod"⟩],
          .ok (none, some ⟨"There are no running tasks in the cluster " ++ "prod"⟩)⟩
    ∧ Event.DescribeTasks ⟨some "prod",
          ["arn:aws:ecs:us-east-1:123456789012:task/prod/7f3a9c",
            "arn:aws:ecs:us-east-1:123456789012:task/prod/51c2e8"]⟩ ∈
        (getTask twoTasks (operatorPicking 0) "prod").trace :=
  ⟨rfl, (getTask_no_tasks noTasks (operatorPicking 0) "prod").1 rfl, by decide⟩

/-- Witness of C6: the task with the single container `app`. -/
theorem getContainer_single_witness :
    workerTask.Containers = [appContainer] ∧
    getContainer noTasks (operatorPicking 0) workerTask = ⟨[], .ok (some appContainer, none)⟩ :=
  ⟨rfl, getContainer_single noTasks (operatorPicking 0) workerTask appContainer rfl⟩

/-- Witness of C3: the operator takes the second of two containers. -/
theorem getContainer_returns_member_witness :
    (getContainer noTasks (operatorPicking 1) webTask).result = .ok (some logContainer, none)
    ∧ logContainer ∈ webTask.Containers := by
  obtain ⟨c, hc, hmem⟩ := getContainer_returns_member noTasks (operatorPicking 1) webTask
    (operatorPicking_mem 1) (some logContainer) rfl
  refine ⟨rfl, ?_⟩
  rw [Option.some.inj hc]
  exact hmem

/-- C2: on two containers with the distinct names "app" and "app-sidecar", when the
operator chooses "app", the name of the first container, `selectContainer` returns
the second container with no error: line 211 tests whether the container name
contains the selection and the loop has no `break`, so the last such container wins. -/
theorem selectContainer_returns_other_container :
    1 < [appContainer, sidecarContainer].length
    ∧ appContainer.Name = some "app" ∧ sidecarContainer.Name = some "app-sidecar"
    ∧ "app" ≠ "app-sidecar"
    ∧ operatorPicking 0 "Container" containerMessage ["app", "app-sidecar"] = .ok "app"
    ∧ strings.Contains "app" "app" = true ∧ strings.Contains "app-sidecar" "app" = true
    ∧ selectContainer (operatorPicking 0) [appContainer, sidecarContainer] =
        ⟨[.Ask "Container" containerMessage ["app", "app-sidecar"]],
          .ok (some sidecarContainer, none)⟩
    ∧ getContainer noTasks (operatorPicking 0) appTask =
        ⟨[.Ask "Container" containerMessage ["app", "app-sidecar"]],
          .ok (some sidecarContainer, none)⟩
    ∧ sidecarContainer ≠ appContainer :=
  ⟨by decide, rfl, rfl, by decide, rfl, by decide, by decide, rfl, rfl, by decide⟩

theorem webTask_described : webTask.Described :=
  ⟨⟨_, rfl, by decide⟩, ⟨_, rfl, by decide⟩, ⟨["web", "log-router"], rfl⟩⟩

theorem workerTask_described : workerTask.Described :=
  ⟨⟨_, rfl, by decide⟩, ⟨_, rfl, by decide⟩, ⟨["app"], rfl⟩⟩

/-- Counterexample to C1: both resource names have the form `a/b/shortId`, the
operator chooses the label built for the second task, and `selectTask` returns the
first task, whose short id "7f3a" occurs in that label. -/
theorem selectTask_counterexample :
    workerTask.Described ∧ webTask.Described
    ∧ taskOptionsLoop [workerTask, webTask] =
        .ok ["7f3a\tworker:1\t(app)", "7f3a9c\tweb:3\t(web,log-router)"]
    ∧ operatorPicking 1 "Task" "Task you would like to connect to:"
          ["7f3a\tworker:1\t(app)", "7f3a9c\tweb:3\t(web,log-router)"] =
        .ok "7f3a9c\tweb:3\t(web,log-router)"
    ∧ selectTask (operatorPicking 1) [workerTask, webTask] =
        ⟨[.Ask "Task" "Task you would like to connect to:"
            ["7f3a\tworker:1\t(app)", "7f3a9c\tweb:3\t(web,log-router)"]],
          .ok (some workerTask, none)⟩
    ∧ workerTask ≠ webTask :=
  ⟨workerTask_described, webTask_described, rfl, rfl, rfl, by decide⟩

theorem appTask_described : appTask.Described :=
  ⟨⟨_, rfl, by decide⟩, ⟨_, rfl, by decide⟩, ⟨["app", "app-sidecar"], rfl⟩⟩

/-- Witness of C1 amended: two described tasks, the operator takes the second label,
in which the short id "7f3a9c" of the first task does not occur. -/
theorem selectTask_returns_chosen_witness :
    selectTask (operatorPicking 1) [webTask, appTask] =
      ⟨[.Ask "Task" "Task you would like to connect to:"
          ["7f3a9c\tweb:3\t(web,log-router)", "51c2e8\tapp:7\t(app,app-sidecar)"]],
        .ok (some appTask, none)⟩ := by
  obtain ⟨labels, hl, _, h⟩ := selectTask_returns_chosen (operatorPicking 1)
    [webTask, appTask] (by decide) (by
      intro t ht
      rcases List.mem_cons.1 ht with h | h
      · subst h; exact webTask_described
      · rcases List.mem_cons.1 h with h | h
        · subst h; exact appTask_described
        · simp at h)
  have hlabels : labels =
      ["7f3a9c\tweb:3\t(web,log-router)", "51c2e8\tapp:7\t(app,app-sidecar)"] :=
    (Except.ok.inj hl).symm
  subst hlabels
  exact h 1 appTask "51c2e8\tapp:7\t(app,app-sidecar)" rfl rfl rfl
    (fun j u arn hj hu harn => by
      match j, hj, hu with
      | 0, _, hu =>
        simp only [List.getElem?_cons_zero, Option.some.injEq] at hu
        subst hu
        have : arn = "arn:aws:ecs:us-east-1:123456789012:task/prod/7f3a9c" :=
          (Option.some.inj harn).symm
        subst this
        decide)

/-- C8: on a task resource name with two segments (the short ARN format) the fixed
index `[2]` of lines 150 and 175 panics, so `selectTask` builds no label, while the
cluster stage run on the same string yields the substring after the last `'/'`; on a
resource name with four segments the short id is the third segment, not the last. -/
theorem taskShortId_fixed_index :
    shortArnTask.TaskArn = some "arn:aws:ecs:us-east-1:123456789012:task/7f3a9c"
    ∧ lastSegment "arn:aws:ecs:us-east-1:123456789012:task/7f3a9c" = "7f3a9c"
    ∧ clusterNamesLoop ["arn:aws:ecs:us-east-1:123456789012:task/7f3a9c"] = .ok ["7f3a9c"]
    ∧ taskShortId shortArnTask = .error (.indexOutOfRange 2 2)
    ∧ selectTask (operatorPicking 0) [shortArnTask] = ⟨[], .error (.indexOutOfRange 2 2)⟩
    ∧ nestedTask.TaskArn = some "arn:aws:ecs:us-east-1:123456789012:task/prod/blue/7f3a9c"
    ∧ lastSegment "arn:aws:ecs:us-east-1:123456789012:task/prod/blue/7f3a9c" = "7f3a9c"
    ∧ taskShortId nestedTask = .ok "blue"
    ∧ taskLabel nestedTask = .ok "blue\tweb:3\t(web)" :=
  ⟨rfl, by decide, rfl, rfl, rfl, rfl, by decide, rfl, rfl⟩

/-- C10: without any signal delivered the listener is blocked while the channel is
open, but once the child is over and `runCommand` has returned (running the deferred
`close(sigs)`), the listener goroutine can take its receive on the closed channel and
end the program with `os.Exit(0)`. -/
theorem runCommand_listener_exits_without_signal (err : Option GoError) :
    runCommand.exec runCommand.init [.listener] = none
    ∧ runCommand.exec runCommand.init [.childDone err, .listener] = none
    ∧ ([Step.childDone err, .callerReturn, .listener].all fun s => !s.isDeliver) = true
    ∧ runCommand.exec runCommand.init [.childDone err, .callerReturn, .listener] =
        some ⟨⟨[], true⟩, .returned err, some 0⟩ :=
  ⟨rfl, rfl, rfl, rfl⟩

end Ecsgo
